import Mathlib

/-!
Shallow embedding of `src/simple-malloc.c` (xmalloc/xfree, version 4.0).

The allocator keeps a doubly linked chain of block headers.  Here the chain
is a `List Block` in link order (head first); the `next`/`prev` pointer
surgery of the C code corresponds to list surgery at the matching position,
which is faithful because every operation of the source (append to tail,
insert after a block, unlink a merged block) preserves the correspondence
between link order and list order.

Machine integers: `size_t` arithmetic is modelled on `Nat` with explicit
reduction modulo `2 ^ 64`.  Addresses (pointer values) are plain `Nat`;
`NULL` is the address `0`.  The LP64 layout constants of the source are
`sizeof(size_t) = 8` and `sizeof(struct header) = 32` (8 for `size`,
1 + 7 padding for `free`, 8 + 8 for `next`/`prev`).

The OS collaborator (`sbrk`) is modelled by a boolean `ok` passed to the
operations that may grow the region: `ok = true` means the extension is
granted at the current break, `ok = false` means `sbrk` returns `(void*)-1`
and leaves the break unchanged.
-/

/-- `2 ^ 64`, the modulus of `size_t` arithmetic. -/
def U64 : Nat := 2 ^ 64

/-- `#define ALIGNMENT sizeof(size_t)` (line 34): the word size, 8 on LP64. -/
def ALIGNMENT : Nat := 8

/-- `#define HEADER_SIZE sizeof(struct header)` (line 26): 32 bytes on LP64. -/
def HEADER_SIZE : Nat := 32

/-- Unsigned 64-bit subtraction: `a - b` as computed on `size_t` operands
(two's complement wraparound).  For `b ≤ a < 2^64` this is plain
subtraction; for `a < b` it wraps. -/
def usub (a b : Nat) : Nat := (a + (U64 - b % U64)) % U64

/-- `#define ALIGN(size) (((size) + (ALIGNMENT-1)) & ~(ALIGNMENT-1))`
(line 35).  The sum is `size_t` arithmetic (mod `2^64`) and
`~(ALIGNMENT-1)` is the 64-bit mask `2^64 - 8`. -/
def ALIGN (size : Nat) : Nat :=
  Nat.land ((size + (ALIGNMENT - 1)) % U64) (U64 - ALIGNMENT)

/-- One `struct header` (lines 16-21) together with the address it lives at.
`next`/`prev` are represented by the block's position in the chain list. -/
structure Block where
  addr : Nat
  size : Nat
  free : Bool
deriving Repr, DecidableEq

/-- The allocator's global state: the chain `head .. tail` (lines 23-24) as a
list in link order, plus the current program break (the `sbrk` cursor). -/
structure Heap where
  blocks : List Block
  brk : Nat
deriving Repr, DecidableEq

/-- The loop test of `search_free_list` (line 108):
`curr_blk->size >= size && curr_blk->free`. -/
def fits (size : Nat) (b : Block) : Bool :=
  decide (b.size ≥ size) && b.free

/-- `can_split_block` (lines 71-76): `(block->size + HEADER_SIZE) > req_size`,
the sum computed in `size_t` (mod `2^64`). -/
def can_split_block (b : Block) (req_size : Nat) : Bool :=
  decide ((b.size + HEADER_SIZE) % U64 > req_size)

/-- The left half produced by `split_block` (lines 85-86): the original block
with `size` set to the request and `free` cleared. -/
def split_lhs (b : Block) (size : Nat) : Block :=
  { addr := b.addr, size := size, free := false }

/-- The right half produced by `split_block` (lines 83-84).  The address is
the literal pointer arithmetic of line 83,
`(struct header*)(char*)(lhs_block+1) + size`: the cast back to
`struct header*` happens *before* `+ size`, so the offset is
`size * HEADER_SIZE` bytes past `lhs + 1`, not `size` bytes.  The recorded
size is `lhs_block->size - size - HEADER_SIZE` in `size_t` arithmetic. -/
def split_rhs (b : Block) (size : Nat) : Block :=
  { addr := b.addr + HEADER_SIZE + size * HEADER_SIZE
    size := usub (usub b.size size) HEADER_SIZE
    free := true }

/-- The scan loop of `search_free_list` (lines 107-112): first block with
`size >= size && free`, or `NULL`. -/
def find_fit (size : Nat) : List Block → Option Block
  | [] => none
  | b :: rest => if fits size b then some b else find_fit size rest

/-- `search_free_list` (lines 101-118) acting on the chain list: scan for the
first fitting block; if `can_split_block` holds, perform the `split_block`
surgery (lines 88-94: the right half takes over the left half's former
`next` link, and becomes the new tail when the found block was the tail —
in list terms, it is inserted directly after the left half); otherwise
return the found block unchanged (line 117 — note the source does *not*
mark it allocated in this branch).  The result is the returned header's
address together with the updated chain. -/
def search_free_list (size : Nat) : List Block → Option (Nat × List Block)
  | [] => none
  | b :: rest =>
    if fits size b then
      if can_split_block b size then
        some (b.addr, split_lhs b size :: split_rhs b size :: rest)
      else
        some (b.addr, b :: rest)
    else
      (search_free_list size rest).map (fun r => (r.1, b :: r.2))

/-- `get_heap_mem` (lines 59-69) on top of `get_raw_heap_mem` (lines 46-55):
ask `sbrk` for `HEADER_SIZE + size` bytes.  On success the new header is
initialised at the old break (`init_header(block, size, false)`, line 67)
and the break advances; on failure (`ok = false`) the result is `NULL` and
the break is untouched. -/
def get_heap_mem (brk size : Nat) (ok : Bool) : Option (Block × Nat) :=
  if ok then
    some ({ addr := brk, size := size, free := false },
          brk + (HEADER_SIZE + size) % U64)
  else
    none

/-- `expand_free_list` (lines 120-130): grow, then `append_to_free_list`
(lines 28-31), which links the new block after the current tail. -/
def expand_free_list (h : Heap) (size : Nat) (ok : Bool) : Option (Block × Heap) :=
  match get_heap_mem h.brk size ok with
  | none => none
  | some (b, brk') => some (b, { blocks := h.blocks ++ [b], brk := brk' })

/-- `init_heap` (lines 132-142): grow and make the new block both head and
tail of the chain. -/
def init_heap (h : Heap) (size : Nat) (ok : Bool) : Option (Block × Heap) :=
  match get_heap_mem h.brk size ok with
  | none => none
  | some (b, brk') => some (b, { blocks := [b], brk := brk' })

/-- `xmalloc` (lines 144-160).  Returns the payload pointer and the new state.
Note the source's failure handling: in the empty-chain branch a failed
`init_heap` leaves `block == NULL` and the function still falls through to
`return block + 1` (line 159), producing the non-null value
`(struct header*)NULL + 1`, i.e. the address `HEADER_SIZE`; only the
`expand_free_list` failure path returns `NULL` (line 155). -/
def xmalloc (h : Heap) (size : Nat) (ok : Bool) : Nat × Heap :=
  let s := ALIGN size
  match h.blocks with
  | [] =>
    match init_heap h s ok with
    | none => (0 + HEADER_SIZE, h)
    | some (b, h') => (b.addr + HEADER_SIZE, h')
  | _ :: _ =>
    match search_free_list s h.blocks with
    | some (a, blocks') => (a + HEADER_SIZE, { blocks := blocks', brk := h.brk })
    | none =>
      match expand_free_list h s ok with
      | none => (0, h)
      | some (b, h') => (b.addr + HEADER_SIZE, h')

/-- `merge_adjacent_free_blocks` (lines 162-174): block `b` is absorbed into
its list predecessor `a`: `a->size += b->size + HEADER_SIZE` in `size_t`
arithmetic, `b` is unlinked (`a->next = b->next; b->next->prev = a`), and
`tail` moves to `a` if `b` was the tail — in list terms, `a` and `b` are
replaced by the single merged block. -/
def merge_adjacent_free_blocks (a b : Block) : Block :=
  { addr := a.addr
    size := (a.size + (b.size + HEADER_SIZE) % U64) % U64
    free := a.free }

/-- The part of `xfree` (lines 176-194) that acts past the chain's head:
walk the chain carrying the previous block (the `prev` pointer).  When the
block whose header address is `a` is found it is marked free; then, as in
the source, the right neighbour is merged into it if free (lines 187-190),
else it is merged into the left neighbour if that one is free
(lines 192-193), else it stays in place. -/
def xfree_go (a : Nat) (prev : Block) : List Block → List Block
  | [] => [prev]
  | b :: rest =>
    if b.addr = a then
      let b' : Block := { addr := b.addr, size := b.size, free := true }
      match rest with
      | c :: rest' =>
        if c.free then
          prev :: merge_adjacent_free_blocks b' c :: rest'
        else if prev.free then
          merge_adjacent_free_blocks prev b' :: c :: rest'
        else
          prev :: b' :: c :: rest'
      | [] =>
        if prev.free then [merge_adjacent_free_blocks prev b']
        else [prev, b']
    else
      prev :: xfree_go a b rest

/-- `xfree` (lines 176-194).  `ptr = 0` (`NULL`) is a no-op (line 181-182);
otherwise the header is recovered as `ptr - HEADER_SIZE`
(`get_header`, line 27).  The chain's head block has no `prev`, so a freed
head can only right-merge.  Releasing a pointer that matches no header is
undefined behaviour in the source (it would scribble on foreign memory);
here it leaves the chain unchanged. -/
def xfree (h : Heap) (ptr : Nat) : Heap :=
  if ptr = 0 then h
  else
    match h.blocks with
    | [] => h
    | b :: rest =>
      if b.addr = ptr - HEADER_SIZE then
        let b' : Block := { addr := b.addr, size := b.size, free := true }
        match rest with
        | c :: rest' =>
          if c.free then { blocks := merge_adjacent_free_blocks b' c :: rest', brk := h.brk }
          else { blocks := b' :: c :: rest', brk := h.brk }
        | [] => { blocks := [b'], brk := h.brk }
      else
        { blocks := xfree_go (ptr - HEADER_SIZE) b rest, brk := h.brk }

/-- `free_list_len` (lines 196-206): the number of blocks in the chain. -/
def free_list_len (h : Heap) : Nat := h.blocks.length

/-! ## Specification-side definitions

These definitions phrase the spec's description of the operations and
invariants (spec §3, §4.3, §4.5) so that the code-derived functions above can
be compared against them. -/

/-- The spec's "else, if the left neighbour (`prev`) exists and is free,
merge this block into the left neighbour ... if neither neighbour is free,
the block simply remains marked free in place" (§4.5), phrased on the chain
segment `A` preceding the released block `x'`: the left neighbour is the
last block of `A`. -/
def releaseLeft : List Block → Block → List Block → List Block
  | [], x', B => x' :: B
  | [p], x', B =>
    if p.free then merge_adjacent_free_blocks p x' :: B else p :: x' :: B
  | q :: p :: A, x', B => q :: releaseLeft (p :: A) x' B

/-- Modelled from the spec (§4.5): the chain after releasing block `x`, whose
list context is `A ++ x :: B`.  Mark `x` free; if the right neighbour (head
of `B`) exists and is free, merge it into `x` and stop; else defer to the
left-neighbour rule `releaseLeft`. -/
def releaseSpec (A : List Block) (x : Block) (B : List Block) : List Block :=
  let x' : Block := { addr := x.addr, size := x.size, free := true }
  match B with
  | c :: B' =>
    if c.free then A ++ merge_adjacent_free_blocks x' c :: B'
    else releaseLeft A x' (c :: B')
  | [] => releaseLeft A x' []

/-- Whether the left neighbour determined by the preceding chain segment
exists and is free (the last block of the segment). -/
def leftFree : List Block → Bool
  | [] => false
  | [p] => p.free
  | _ :: p :: A => leftFree (p :: A)

/-- Whether the right neighbour determined by the following chain segment
exists and is free (the head block of the segment). -/
def rightFree : List Block → Bool
  | [] => false
  | c :: _ => c.free

/-- Spec §3 invariant: no two list-adjacent blocks are both free. -/
def noAdjFree (L : List Block) : Prop :=
  List.Chain' (fun a b => ¬(a.free = true ∧ b.free = true)) L

/-- Executable form of `noAdjFree`. -/
def noAdjFreeB : List Block → Bool
  | [] => true
  | [_] => true
  | a :: b :: L => (!(a.free && b.free)) && noAdjFreeB (b :: L)

lemma noAdjFreeB_iff : ∀ L, noAdjFreeB L = true ↔ noAdjFree L
  | [] => by simp [noAdjFreeB, noAdjFree]
  | [a] => by simp [noAdjFreeB, noAdjFree]
  | a :: b :: L => by
    have ih := noAdjFreeB_iff (b :: L)
    rw [noAdjFree] at ih ⊢
    cases ha : a.free <;> cases hb : b.free <;>
      simp [noAdjFreeB, List.chain'_cons, ha, hb, ih]

instance (L : List Block) : Decidable (noAdjFree L) :=
  decidable_of_iff _ (noAdjFreeB_iff L)

/-- Spec §3 invariant: the chain is strictly ascending by memory address. -/
def addrAscending (L : List Block) : Prop :=
  List.Chain' (fun a b => a.addr < b.addr) L

/-- Executable form of `addrAscending`. -/
def addrAscendingB : List Block → Bool
  | [] => true
  | [_] => true
  | a :: b :: L => decide (a.addr < b.addr) && addrAscendingB (b :: L)

lemma addrAscendingB_iff : ∀ L, addrAscendingB L = true ↔ addrAscending L
  | [] => by simp [addrAscendingB, addrAscending]
  | [a] => by simp [addrAscendingB, addrAscending]
  | a :: b :: L => by
    have ih := addrAscendingB_iff (b :: L)
    rw [addrAscending] at ih ⊢
    simp [addrAscendingB, List.chain'_cons, ih]

instance (L : List Block) : Decidable (addrAscending L) :=
  decidable_of_iff _ (addrAscendingB_iff L)

/-- A state reached from an empty chain by `xmalloc 10`, `xmalloc 10`,
`xfree` of the first block, `xmalloc 8`.  The last call splits the freed
16-byte block with request 8, exercising the pointer arithmetic of
`split_block` (line 83) and the wrapped remainder size of line 84. -/
def wrapHeap : Heap :=
  (xmalloc
    (xfree (xmalloc (xmalloc { blocks := [], brk := 4096 } 10 true).2 10 true).2
      4128)
    8 true).2

/-! ## Code-bug evaluations and counterexamples (concrete runs) -/

/-- C1: on the very first allocation (empty chain) with the OS refusing the
extension, `xmalloc` does NOT return the null sentinel: `init_heap` yields
`NULL`, but control falls through to `return block + 1` (line 159), so the
caller receives the non-null value `(struct header*)NULL + 1`, i.e. the
address `HEADER_SIZE = 32`.  The chain itself is left untouched.  By
contrast, on a non-empty chain the refused-growth path does return `NULL`
(line 155). -/
theorem xmalloc_first_growth_failure_returns_nonnull :
    xmalloc { blocks := [], brk := 4096 } 10 false =
      (HEADER_SIZE, { blocks := [], brk := 4096 }) ∧
    HEADER_SIZE ≠ 0 ∧
    xmalloc { blocks := [{ addr := 4096, size := 16, free := false }], brk := 4144 }
        10 false =
      (0, { blocks := [{ addr := 4096, size := 16, free := false }], brk := 4144 }) := by
  refine ⟨rfl, by decide, rfl⟩

/-- C2: a found free block of size 16 with an aligned request of 16 has a
remainder (`16 - 16 - HEADER_SIZE`) far too small to host a header, yet
`search_free_list` still splits it — `can_split_block` compares
`block.size + HEADER_SIZE > req_size`, which any found block satisfies —
recording the wrapped remainder `2^64 - 32` in the new right-hand block
instead of returning the whole block marked allocated. -/
theorem search_splits_exact_fit_with_wrapped_remainder :
    search_free_list 16 [{ addr := 4096, size := 16, free := true }] =
      some (4096, [{ addr := 4096, size := 16, free := false },
                   { addr := 4640, size := U64 - 32, free := true }]) ∧
    (16 : Nat) < 16 + HEADER_SIZE := by
  refine ⟨rfl, by decide⟩

/-- C3: splitting does NOT place the right-hand block immediately after the
left portion's header plus `size` payload bytes.  Line 83 casts back to
`struct header*` before adding `size`, so the new header lands
`size * HEADER_SIZE` bytes past `lhs + 1`.  In the reachable state
`wrapHeap` (two growths, a free, then a splitting allocation of 8 bytes)
the chain's addresses are `[4096, 4384, 4144]` — the split block was
placed at `4096 + 32 + 8*32 = 4384`, past its former next neighbour at
`4144`, so the chain is not ascending by address. -/
theorem split_misplaces_rhs_breaking_address_order :
    wrapHeap.blocks.map Block.addr = [4096, 4384, 4144] ∧
    ¬ addrAscending wrapHeap.blocks ∧
    (split_rhs { addr := 4096, size := 16, free := true } 8).addr =
      4096 + HEADER_SIZE + 8 * HEADER_SIZE ∧
    4096 + HEADER_SIZE + 8 * HEADER_SIZE ≠ 4096 + HEADER_SIZE + 8 := by
  refine ⟨rfl, by decide, rfl, by decide⟩

/-- C4 counterexample: allocate four 10-byte blocks, free the first and the
third, then free the second.  The second block's right neighbour is free,
so `xfree` right-merges and returns without looking left — leaving the
(free) first block list-adjacent to the (free) merged block: two adjacent
free blocks after a `release` call returns. -/
theorem release_leaves_adjacent_free_blocks :
    (let k :=
      (xmalloc (xmalloc (xmalloc (xmalloc { blocks := [], brk := 4096 } 10 true).2
        10 true).2 10 true).2 10 true).2
     let k' := xfree (xfree (xfree k 4128) 4224) 4176
     k'.blocks.map Block.free = [true, true, false] ∧ ¬ noAdjFree k'.blocks) := by
  decide

/-- C5 counterexample: in the reachable state `wrapHeap` the chain holds a
free block whose recorded size is the wrapped value `2^64 - 24`.  For the
request 16 this block is found by the first-fit scan (`fits` holds), yet
the split predicate is NOT automatically true: `block.size + HEADER_SIZE`
itself wraps to `8`, so `can_split_block` fails and the block is handed
back whole — still marked free. -/
theorem found_huge_block_not_split :
    fits 16 { addr := 4384, size := U64 - 24, free := true } = true ∧
    can_split_block { addr := 4384, size := U64 - 24, free := true } 16 = false ∧
    search_free_list 16 wrapHeap.blocks = some (4384, wrapHeap.blocks) := by
  refine ⟨by decide, by decide, rfl⟩

/-- C6: the round trip of the source's own self-test: allocate 10, 20, 30
(chain length 3); free the first then the second (length 2, merged size
`ALIGN 10 + ALIGN 20 + HEADER_SIZE = 72`); free the third (length 1,
size `ALIGN 10 + ALIGN 20 + ALIGN 30 + 2*HEADER_SIZE = 136`, sole block =
head = tail). -/
theorem merge_round_trip_10_20_30 :
    (let h0 : Heap := { blocks := [], brk := 4096 }
     let r1 := xmalloc h0 10 true
     let r2 := xmalloc r1.2 20 true
     let r3 := xmalloc r2.2 30 true
     let h4 := xfree r3.2 r1.1
     let h5 := xfree h4 r2.1
     let h6 := xfree h5 r3.1
     free_list_len r3.2 = 3 ∧
     free_list_len h5 = 2 ∧
     h5.blocks.map Block.size = [ALIGN 10 + ALIGN 20 + HEADER_SIZE, ALIGN 30] ∧
     free_list_len h6 = 1 ∧
     h6.blocks.map Block.size =
       [ALIGN 10 + ALIGN 20 + ALIGN 30 + 2 * HEADER_SIZE] ∧
     h6.blocks.head? = h6.blocks.getLast?) := by
  decide

/-- C10 counterexample: in the reachable state `wrapHeap`, `xmalloc 16`
returns the payload pointer `4416`, i.e. hands out the block at `4384`
whose recorded size is the wrapped `2^64 - 24`, not `ALIGN 16 = 16` — the
found block fails `can_split_block` (its size + header overflows), is not
split, and is returned whole (and still marked free). -/
theorem handed_block_size_not_aligned_after_wrap :
    xmalloc wrapHeap 16 true = (4384 + HEADER_SIZE, wrapHeap) ∧
    wrapHeap.blocks.map (fun b => (b.addr, b.size)) =
      [(4096, 8), (4384, U64 - 24), (4144, 16)] ∧
    U64 - 24 ≠ ALIGN 16 := by
  refine ⟨rfl, rfl, by decide⟩

/-! ## Arithmetic helper lemmas -/

lemma U64_eq : U64 = 18446744073709551616 := by norm_num [U64]

lemma usub_of_le {a b : Nat} (hb : b ≤ a) (ha : a < U64) : usub a b = a - b := by
  unfold usub
  rw [U64_eq] at *
  omega

lemma usub_wrap_of_lt {a b : Nat} (hab : a < b) (hb : b < U64) :
    usub a b = a + U64 - b := by
  unfold usub
  rw [U64_eq] at *
  omega

/-! ## C8: the first-fit scan -/

lemma find_fit_eq_find? (s : Nat) : ∀ L : List Block, find_fit s L = L.find? (fits s)
  | [] => rfl
  | b :: rest => by
    cases hf : fits s b <;> simp [find_fit, List.find?, hf, find_fit_eq_find? s rest]

lemma search_none_iff_find_none (s : Nat) :
    ∀ L : List Block, (search_free_list s L = none ↔ find_fit s L = none)
  | [] => by simp [search_free_list, find_fit]
  | b :: rest => by
    cases hf : fits s b
    · have ih := search_none_iff_find_none s rest
      simp only [search_free_list, find_fit, hf, Bool.false_eq_true, if_false]
      cases hs : search_free_list s rest <;> simp [hs] at ih ⊢ <;> simp [ih]
    · simp only [search_free_list, find_fit, hf, if_true]
      split <;> simp

/-- C8: the scan of `search_free_list` selects exactly the first block of the
chain (head towards tail) that is free and large enough, reports "not
found" exactly when no block of the chain satisfies that predicate, and
`search_free_list` as a whole fails exactly when the scan fails (the case
in which `xmalloc` falls back to growth). -/
theorem find_fit_is_first_fit (s : Nat) (L : List Block) :
    find_fit s L = L.find? (fits s) ∧
    (find_fit s L = none ↔ ∀ b ∈ L, ¬(b.free = true ∧ s ≤ b.size)) ∧
    (search_free_list s L = none ↔ find_fit s L = none) := by
  refine ⟨find_fit_eq_find? s L, ?_, search_none_iff_find_none s L⟩
  rw [find_fit_eq_find? s L, List.find?_eq_none]
  constructor
  · intro hnone b hb hfree
    have := hnone b hb
    simp [fits] at this
    exact absurd (this hfree.2) (by simp [hfree.1])
  · intro hall b hb
    by_cases hfr : b.free = true
    · have hno : ¬ s ≤ b.size := fun hs => hall b hb ⟨hfr, hs⟩
      simp [fits, hno]
    · simp [fits]
      intro _
      exact Bool.eq_false_iff.mpr hfr

/-! ## C9: a refused extension leaves the allocator state untouched -/

/-- C9: whenever the allocation actually reaches the OS collaborator and the
extension is refused — i.e. the chain is empty (the `init_heap` path) or
the first-fit search failed (the `expand_free_list` path) — the entire
allocator state (chain and break) after the failed `xmalloc` equals the
state before it. -/
theorem xmalloc_os_refusal_preserves_heap (h : Heap) (s : Nat)
    (hgrow : h.blocks = [] ∨ search_free_list (ALIGN s) h.blocks = none) :
    (xmalloc h s false).2 = h := by
  cases hb : h.blocks with
  | nil => simp [xmalloc, hb, init_heap, get_heap_mem]
  | cons b bs =>
    have hs : search_free_list (ALIGN s) (b :: bs) = none := by
      rcases hgrow with h1 | h2
      · rw [hb] at h1; cases h1
      · rw [hb] at h2; exact h2
    simp [xmalloc, hb, hs, expand_free_list, get_heap_mem]

theorem xmalloc_os_refusal_preserves_heap_witness :
    (xmalloc { blocks := [{ addr := 4096, size := 16, free := false }], brk := 4144 }
        10 false).2 =
      { blocks := [{ addr := 4096, size := 16, free := false }], brk := 4144 } :=
  xmalloc_os_refusal_preserves_heap
    { blocks := [{ addr := 4096, size := 16, free := false }], brk := 4144 } 10
    (Or.inr (by decide))

/-! ## C5 (amended): every fit splits, with a wrapped remainder on tight fits -/

/-- C5 (amended): provided the found block's recorded size does not make
`size + HEADER_SIZE` overflow (`b.size + HEADER_SIZE < 2^64`), any free
block large enough for the request satisfies `can_split_block` — the
predicate compares `b.size + HEADER_SIZE > req`, which then follows from
`req ≤ b.size` alone — so every such fit is split; and whenever
`b.size < req + HEADER_SIZE` the new right-hand block's recorded size,
computed as `b.size - req - HEADER_SIZE` in unsigned arithmetic, wraps to
a huge value (at least `2^64 - HEADER_SIZE`) rather than being rejected. -/
theorem found_fit_always_splits_with_wrap (b : Block) (s : Nat)
    (hfree : b.free = true) (hge : s ≤ b.size) (hov : b.size + HEADER_SIZE < U64) :
    can_split_block b s = true ∧
    (b.size < s + HEADER_SIZE → U64 - HEADER_SIZE ≤ (split_rhs b s).size) := by
  have hH : HEADER_SIZE = 32 := rfl
  have hlt : b.size < U64 := by omega
  constructor
  · have hm : (b.size + HEADER_SIZE) % U64 = b.size + HEADER_SIZE :=
      Nat.mod_eq_of_lt hov
    simp only [can_split_block, hm, decide_eq_true_eq]
    omega
  · intro hsmall
    have h1 : usub b.size s = b.size - s := usub_of_le hge hlt
    have h2 : b.size - s < HEADER_SIZE := by omega
    have h3 : HEADER_SIZE < U64 := by rw [U64_eq]; omega
    have : (split_rhs b s).size = usub (usub b.size s) HEADER_SIZE := rfl
    rw [this, h1, usub_wrap_of_lt h2 h3]
    omega

theorem found_fit_always_splits_with_wrap_witness :
    can_split_block { addr := 4096, size := 16, free := true } 16 = true ∧
    ((16 : Nat) < 16 + HEADER_SIZE →
      U64 - HEADER_SIZE ≤ (split_rhs { addr := 4096, size := 16, free := true } 16).size) :=
  found_fit_always_splits_with_wrap { addr := 4096, size := 16, free := true } 16
    rfl (by decide) (by rw [U64_eq]; decide)

/-! ## C10: alignment arithmetic -/

lemma land_mask_eq_div_mul (x : Nat) (hx : x < U64) :
    Nat.land x (U64 - ALIGNMENT) = x / 8 * 8 := by
  have hland : Nat.land x (U64 - ALIGNMENT) = x &&& ((2 ^ 61 - 1) <<< 3) := by
    have hm : U64 - ALIGNMENT = (2 ^ 61 - 1) <<< 3 := by
      rw [Nat.shiftLeft_eq]; norm_num [U64, ALIGNMENT]
    rw [← hm]; rfl
  have hdm : x / 8 * 8 = (x >>> 3) <<< 3 := by
    rw [Nat.shiftRight_eq_div_pow, Nat.shiftLeft_eq]
  rw [hland, hdm]
  apply Nat.eq_of_testBit_eq
  intro i
  rw [Nat.testBit_land, Nat.testBit_shiftLeft, Nat.testBit_shiftLeft,
    Nat.testBit_shiftRight, Nat.testBit_two_pow_sub_one]
  by_cases h3 : 3 ≤ i
  · have h33 : 3 + (i - 3) = i := by omega
    rw [h33]
    by_cases h64 : i < 64
    · have hlt : i - 3 < 61 := by omega
      simp [h3, hlt]
    · have hxi : x.testBit i = false := by
        apply Nat.testBit_lt_two_pow
        have h1 : (2 : Nat) ^ 64 ≤ 2 ^ i := Nat.pow_le_pow_right (by norm_num) (by omega)
        have h2 : x < 2 ^ 64 := hx
        omega
      have hge : ¬(i - 3 < 61) := by omega
      simp [h3, hge, hxi]
  · simp [h3]

lemma align_eq_div_mul (s : Nat) (hs : s + (ALIGNMENT - 1) < U64) :
    ALIGN s = ((s + (ALIGNMENT - 1)) / ALIGNMENT) * ALIGNMENT := by
  unfold ALIGN
  rw [Nat.mod_eq_of_lt hs]
  exact land_mask_eq_div_mul _ hs

/-- In a chain whose recorded sizes cannot overflow `size + HEADER_SIZE`, a
successful search always goes through the split branch: the returned
address belongs to a block of the original chain and the new chain
contains an allocated block of exactly the requested size at that
address. -/
lemma search_found_mem_and_split (s' : Nat) :
    ∀ (L : List Block), (∀ b ∈ L, b.size + HEADER_SIZE < U64) →
      ∀ a L', search_free_list s' L = some (a, L') →
        (∃ b ∈ L, b.addr = a) ∧ ({ addr := a, size := s', free := false } : Block) ∈ L'
  | [], _, a, L', h => by simp [search_free_list] at h
  | b :: rest, hov, a, L', h => by
    cases hf : fits s' b
    · rw [search_free_list] at h
      rw [hf] at h
      simp only [Bool.false_eq_true, if_false] at h
      cases hs : search_free_list s' rest with
      | none => rw [hs] at h; simp at h
      | some r =>
        rw [hs] at h
        simp only [Option.map_some', Option.some.injEq, Prod.mk.injEq] at h
        obtain ⟨ha, hL⟩ := h
        obtain ⟨⟨b0, hb0, hb0a⟩, hmem⟩ :=
          search_found_mem_and_split s' rest (fun c hc => hov c (by simp [hc]))
            r.1 r.2 (by rw [hs])
        refine ⟨⟨b0, by simp [hb0], by rw [hb0a, ha]⟩, ?_⟩
        rw [← hL, ← ha]
        exact List.mem_cons_of_mem _ hmem
    · have hfits : s' ≤ b.size ∧ b.free = true := by
        have hf' := hf
        simp [fits] at hf'
        exact ⟨hf'.1, hf'.2⟩
      have hcs : can_split_block b s' = true := by
        have hb := hov b (by simp)
        have hm : (b.size + HEADER_SIZE) % U64 = b.size + HEADER_SIZE :=
          Nat.mod_eq_of_lt hb
        simp only [can_split_block, hm, gt_iff_lt, decide_eq_true_eq]
        have h1 := hfits.1
        have hH : (0 : Nat) < HEADER_SIZE := by decide
        omega
      rw [search_free_list] at h
      rw [hf, hcs] at h
      simp only [if_true, Option.some.injEq, Prod.mk.injEq] at h
      obtain ⟨ha, hL⟩ := h
      refine ⟨⟨b, by simp, ha⟩, ?_⟩
      rw [← hL, ← ha]
      exact List.mem_cons_self _ _

/-- C10 (amended): for every requested size `s` with `s + 7 < 2^64`, the
rounded size equals `((s + (W-1)) / W) * W` for the word size `W = 8`;
and provided the pre-state chain carries no wrapped (overflowing) recorded
size and chain addresses and break are word-aligned, the successful
allocation hands out a block of usable size exactly `ALIGN s` whose
payload address is a multiple of the word size. -/
theorem align_formula_and_allocation_alignment (h : Heap) (s : Nat)
    (hov : ∀ b ∈ h.blocks, b.size + HEADER_SIZE < U64)
    (haddr : ∀ b ∈ h.blocks, b.addr % ALIGNMENT = 0)
    (hbrk : h.brk % ALIGNMENT = 0)
    (hs : s + (ALIGNMENT - 1) < U64) :
    ALIGN s = ((s + (ALIGNMENT - 1)) / ALIGNMENT) * ALIGNMENT ∧
    ∃ b ∈ (xmalloc h s true).2.blocks,
      b.addr + HEADER_SIZE = (xmalloc h s true).1 ∧
      b.size = ALIGN s ∧
      (xmalloc h s true).1 % ALIGNMENT = 0 := by
  refine ⟨align_eq_div_mul s hs, ?_⟩
  have hbrk8 : h.brk % 8 = 0 := hbrk
  cases hb : h.blocks with
  | nil =>
    have hx : xmalloc h s true =
        (h.brk + HEADER_SIZE,
         { blocks := [{ addr := h.brk, size := ALIGN s, free := false }],
           brk := h.brk + (HEADER_SIZE + ALIGN s) % U64 }) := by
      simp [xmalloc, hb, init_heap, get_heap_mem]
    rw [hx]
    refine ⟨_, List.mem_singleton_self _, rfl, rfl, ?_⟩
    show (h.brk + 32) % 8 = 0
    omega
  | cons b0 bs =>
    cases hsr : search_free_list (ALIGN s) (b0 :: bs) with
    | some r =>
      obtain ⟨⟨bb, hbb, hbba⟩, hmem⟩ :=
        search_found_mem_and_split (ALIGN s) (b0 :: bs) (by rw [← hb]; exact hov)
          r.1 r.2 (by rw [hsr])
      have hx : xmalloc h s true = (r.1 + HEADER_SIZE, { blocks := r.2, brk := h.brk }) := by
        simp [xmalloc, hb, hsr]
      rw [hx]
      refine ⟨_, hmem, rfl, rfl, ?_⟩
      have h8 : bb.addr % 8 = 0 := haddr bb (by rw [hb]; exact hbb)
      have h8' : r.1 % 8 = 0 := by rw [← hbba]; exact h8
      show (r.1 + 32) % 8 = 0
      omega
    | none =>
      have hx : xmalloc h s true =
          (h.brk + HEADER_SIZE,
           { blocks := h.blocks ++ [{ addr := h.brk, size := ALIGN s, free := false }],
             brk := h.brk + (HEADER_SIZE + ALIGN s) % U64 }) := by
        simp [xmalloc, hb, hsr, expand_free_list, get_heap_mem]
      rw [hx]
      refine ⟨_, List.mem_append_right _ (List.mem_singleton_self _), rfl, rfl, ?_⟩
      show (h.brk + 32) % 8 = 0
      omega

theorem align_formula_and_allocation_alignment_witness :
    ALIGN 10 = ((10 + (ALIGNMENT - 1)) / ALIGNMENT) * ALIGNMENT ∧
    ∃ b ∈ (xmalloc { blocks := [{ addr := 4096, size := 16, free := true }], brk := 4144 }
        10 true).2.blocks,
      b.addr + HEADER_SIZE =
        (xmalloc { blocks := [{ addr := 4096, size := 16, free := true }], brk := 4144 }
          10 true).1 ∧
      b.size = ALIGN 10 ∧
      (xmalloc { blocks := [{ addr := 4096, size := 16, free := true }], brk := 4144 }
        10 true).1 % ALIGNMENT = 0 :=
  align_formula_and_allocation_alignment
    { blocks := [{ addr := 4096, size := 16, free := true }], brk := 4144 } 10
    (by rw [U64_eq]; decide) (by decide) (by decide) (by rw [U64_eq]; decide)

/-! ## C7: `xfree` against the spec's release description -/

lemma releaseSpec_cons_cons (p q : Block) (A : List Block) (x : Block) (B : List Block) :
    releaseSpec (p :: q :: A) x B = p :: releaseSpec (q :: A) x B := by
  unfold releaseSpec
  cases B with
  | nil => simp [releaseLeft]
  | cons c B' =>
    by_cases hc : c.free = true
    · simp [hc]
    · simp [hc, releaseLeft]

lemma xfree_go_spec (x : Block) (B : List Block) :
    ∀ (A : List Block) (prev : Block), (∀ b ∈ A, b.addr ≠ x.addr) →
      xfree_go x.addr prev (A ++ x :: B) = releaseSpec (prev :: A) x B := by
  intro A
  induction A with
  | nil =>
    intro prev _
    cases B with
    | nil =>
      by_cases hp : prev.free = true <;>
        simp [xfree_go, releaseSpec, releaseLeft, hp]
    | cons c B' =>
      by_cases hc : c.free = true
      · simp [xfree_go, releaseSpec, hc]
      · by_cases hp : prev.free = true <;>
          simp [xfree_go, releaseSpec, releaseLeft, hc, hp]
  | cons q A' ih =>
    intro prev hA
    have hq : q.addr ≠ x.addr := hA q (by simp)
    rw [List.cons_append, releaseSpec_cons_cons]
    have hstep : xfree_go x.addr prev (q :: (A' ++ x :: B)) =
        prev :: xfree_go x.addr q (A' ++ x :: B) := by
      simp [xfree_go, hq]
    rw [hstep, ih q (fun b hb => hA b (by simp [hb]))]

lemma xfree_eq_releaseSpec (h : Heap) (A : List Block) (x : Block) (B : List Block)
    (hb : h.blocks = A ++ x :: B) (hA : ∀ b ∈ A, b.addr ≠ x.addr) :
    xfree h (x.addr + HEADER_SIZE) = { blocks := releaseSpec A x B, brk := h.brk } := by
  have hptr : ¬(x.addr + HEADER_SIZE = 0) := by
    have : (0 : Nat) < HEADER_SIZE := by decide
    omega
  have hsub : x.addr + HEADER_SIZE - HEADER_SIZE = x.addr := by omega
  cases A with
  | nil =>
    cases B with
    | nil => simp [xfree, hptr, hb, hsub, releaseSpec, releaseLeft]
    | cons c B' =>
      by_cases hc : c.free = true <;>
        simp [xfree, hptr, hb, hsub, releaseSpec, releaseLeft, hc]
  | cons q A' =>
    have hq : q.addr ≠ x.addr := hA q (by simp)
    have hgo := xfree_go_spec x B A' q (fun b hb' => hA b (by simp [hb']))
    simp only [xfree, hptr, if_false, hb, List.cons_append, hsub]
    rw [if_neg hq, hgo]

/-- C7: for every release of a valid payload pointer (its header address
occurs in the chain, first at the released block's position), the result
of `xfree` is exactly the spec's §4.5 description `releaseSpec`: the block
is marked free; if the right (next) neighbour exists and is free it is
absorbed into the released block and the call stops without touching the
left side; otherwise if the left (prev) neighbour exists and is free the
released block is absorbed into it and the call stops; otherwise the block
just stays free in place — at most one side is merged per call, and the
break is untouched. -/
theorem xfree_matches_release_spec (h : Heap) (A : List Block) (x : Block) (B : List Block)
    (hb : h.blocks = A ++ x :: B) (hA : ∀ b ∈ A, b.addr ≠ x.addr) :
    xfree h (x.addr + HEADER_SIZE) = { blocks := releaseSpec A x B, brk := h.brk } :=
  xfree_eq_releaseSpec h A x B hb hA

theorem xfree_matches_release_spec_witness :
    xfree { blocks := [{ addr := 4096, size := 16, free := false },
                       { addr := 4144, size := 24, free := false },
                       { addr := 4200, size := 32, free := true }],
            brk := 4264 }
        (4144 + HEADER_SIZE) =
      { blocks := releaseSpec [{ addr := 4096, size := 16, free := false }]
          { addr := 4144, size := 24, free := false }
          [{ addr := 4200, size := 32, free := true }],
        brk := 4264 } ∧
    releaseSpec [{ addr := 4096, size := 16, free := false }]
        { addr := 4144, size := 24, free := false }
        [{ addr := 4200, size := 32, free := true }] =
      [{ addr := 4096, size := 16, free := false },
       { addr := 4144, size := 88, free := true }] := by
  constructor
  · exact xfree_matches_release_spec _
      [{ addr := 4096, size := 16, free := false }]
      { addr := 4144, size := 24, free := false }
      [{ addr := 4200, size := 32, free := true }] rfl (by decide)
  · decide

/-! ## C4: the no-two-adjacent-free-blocks invariant under release -/

lemma leftFree_append_singleton : ∀ (A : List Block) (p : Block),
    leftFree (A ++ [p]) = p.free
  | [], p => rfl
  | [q], p => rfl
  | q :: r :: A, p => by
    have ih := leftFree_append_singleton (r :: A) p
    simpa [leftFree] using ih

lemma releaseLeft_concat : ∀ (A : List Block) (p x' : Block) (B : List Block),
    releaseLeft (A ++ [p]) x' B =
      if p.free then A ++ merge_adjacent_free_blocks p x' :: B
      else A ++ p :: x' :: B
  | [], p, x', B => by simp [releaseLeft]
  | [q], p, x', B => by
    by_cases hp : p.free = true <;> simp [releaseLeft, hp]
  | q :: r :: A, p, x', B => by
    have ih := releaseLeft_concat (r :: A) p x' B
    by_cases hp : p.free = true <;> simp [releaseLeft, hp] at ih ⊢ <;> simp [ih]

/-- After a release whose right side will not merge (the following segment's
head, if any, is not free), the left-merge step of the spec preserves the
no-adjacent-free-blocks chain invariant. -/
lemma releaseLeft_chain (A : List Block) (x x' : Block) (B : List Block)
    (hBhead : ∀ y ∈ B.head?, y.free = false)
    (hpre : List.Chain' (fun a b => ¬(a.free = true ∧ b.free = true)) (A ++ x :: B)) :
    List.Chain' (fun a b => ¬(a.free = true ∧ b.free = true)) (releaseLeft A x' B) := by
  rcases List.eq_nil_or_concat A with rfl | ⟨A', p, hAq⟩
  · simp only [releaseLeft]
    rw [List.chain'_cons']
    refine ⟨fun y hy => ?_, ?_⟩
    · have hyf := hBhead y hy
      intro hcon
      rw [hyf] at hcon
      exact Bool.false_ne_true hcon.2
    · exact (List.chain'_cons'.mp (by simpa using hpre)).2
  · subst hAq
    rw [List.concat_eq_append]
    rw [List.concat_eq_append, List.append_assoc, List.singleton_append] at hpre
    rw [releaseLeft_concat]
    rw [List.chain'_append] at hpre
    obtain ⟨hA', hpxB, hj⟩ := hpre
    rw [List.chain'_cons'] at hpxB
    obtain ⟨hpx, hxB⟩ := hpxB
    rw [List.chain'_cons'] at hxB
    obtain ⟨hxhd, hB⟩ := hxB
    by_cases hp : p.free = true
    · rw [if_pos hp, List.chain'_append]
      refine ⟨hA', ?_, ?_⟩
      · rw [List.chain'_cons']
        refine ⟨fun y hy => ?_, hB⟩
        have hyf := hBhead y hy
        intro hcon
        rw [hyf] at hcon
        exact Bool.false_ne_true hcon.2
      · intro q hq y hy
        simp only [List.head?_cons, Option.mem_def] at hy
        injection hy with hy'
        have hqp := hj q hq p (by simp)
        intro hcon
        exact hqp ⟨hcon.1, hp⟩
    · rw [if_neg hp, List.chain'_append]
      refine ⟨hA', ?_, ?_⟩
      · rw [List.chain'_cons']
        refine ⟨fun y hy => ?_, ?_⟩
        · simp only [List.head?_cons, Option.mem_def] at hy
          injection hy with hy'
          intro hcon
          exact hp hcon.1
        · rw [List.chain'_cons']
          refine ⟨fun y hy => ?_, hB⟩
          have hyf := hBhead y hy
          intro hcon
          rw [hyf] at hcon
          exact Bool.false_ne_true hcon.2
      · intro q hq y hy
        simp only [List.head?_cons, Option.mem_def] at hy
        injection hy with hy'
        rw [← hy']
        exact hj q hq p (by simp)

/-- The spec's release description preserves the no-adjacent-free invariant
provided the released block does not have both neighbours free. -/
lemma releaseSpec_noAdjFree (A : List Block) (x : Block) (B : List Block)
    (hpre : noAdjFree (A ++ x :: B))
    (hnb : ¬(leftFree A = true ∧ rightFree B = true)) :
    noAdjFree (releaseSpec A x B) := by
  unfold noAdjFree at hpre ⊢
  cases B with
  | nil =>
    simp only [releaseSpec]
    exact releaseLeft_chain A x _ [] (by simp) hpre
  | cons c B' =>
    by_cases hc : c.free = true
    · have hLf : leftFree A = false := by
        cases hLA : leftFree A with
        | false => rfl
        | true => exact absurd ⟨hLA, by simpa [rightFree] using hc⟩ hnb
      simp only [releaseSpec]
      rw [if_pos hc]
      rw [List.chain'_append] at hpre ⊢
      obtain ⟨hA, hxcB, hjoin⟩ := hpre
      rw [List.chain'_cons'] at hxcB
      obtain ⟨_, hcB⟩ := hxcB
      rw [List.chain'_cons'] at hcB
      obtain ⟨hchd, hB'⟩ := hcB
      refine ⟨hA, ?_, ?_⟩
      · rw [List.chain'_cons']
        refine ⟨fun y hy => ?_, hB'⟩
        have hrc := hchd y hy
        intro hcon
        exact hrc ⟨hc, hcon.2⟩
      · intro q hq y hy
        simp only [List.head?_cons, Option.mem_def] at hy
        injection hy with hy'
        rcases List.eq_nil_or_concat A with rfl | ⟨A', p, hAq⟩
        · simp at hq
        · subst hAq
          rw [List.concat_eq_append] at hq hLf
          rw [List.getLast?_concat] at hq
          simp only [Option.mem_def] at hq
          injection hq with hq'
          rw [leftFree_append_singleton] at hLf
          intro hcon
          have hqt : q.free = true := hcon.1
          rw [← hq'] at hqt
          exact Bool.false_ne_true (hLf ▸ hqt)
    · simp only [releaseSpec]
      rw [if_neg hc]
      refine releaseLeft_chain A x _ (c :: B') (fun y hy => ?_) hpre
      simp only [List.head?_cons, Option.mem_def] at hy
      injection hy with hy'
      rw [← hy']
      exact Bool.eq_false_iff.mpr hc

/-- C4 counterexample shows it can fail; amended: after releasing a valid,
currently allocated block whose left and right neighbours are NOT both
free, a chain satisfying the no-two-adjacent-free-blocks invariant still
satisfies it after `xfree` returns. -/
theorem release_preserves_no_adjacent_free
    (h : Heap) (A : List Block) (x : Block) (B : List Block)
    (hb : h.blocks = A ++ x :: B) (hA : ∀ b ∈ A, b.addr ≠ x.addr)
    (hpre : noAdjFree h.blocks)
    (hnb : ¬(leftFree A = true ∧ rightFree B = true)) :
    noAdjFree (xfree h (x.addr + HEADER_SIZE)).blocks := by
  rw [xfree_eq_releaseSpec h A x B hb hA]
  exact releaseSpec_noAdjFree A x B (hb ▸ hpre) hnb

theorem release_preserves_no_adjacent_free_witness :
    noAdjFree (xfree { blocks := [{ addr := 4096, size := 16, free := true },
                                  { addr := 4144, size := 16, free := false },
                                  { addr := 4192, size := 16, free := false }],
                       brk := 4240 }
        (4144 + HEADER_SIZE)).blocks :=
  release_preserves_no_adjacent_free
    { blocks := [{ addr := 4096, size := 16, free := true },
                 { addr := 4144, size := 16, free := false },
                 { addr := 4192, size := 16, free := false }],
      brk := 4240 }
    [{ addr := 4096, size := 16, free := true }]
    { addr := 4144, size := 16, free := false }
    [{ addr := 4192, size := 16, free := false }]
    rfl (by decide) (by decide) (by decide)
